import Mathlib

/-!
# cpp_modern_examples: utility-class exercises and the RAII idiom

A shallow embedding of
* `Exercises_UtilityClasses::Exercise_02` (`toInt`, `toNumber<T>`),
* `Exercises_UtilityClasses::Exercise_03` (`HeterogeneousContainer`, its visitors),
* `RAIIDemo` (`RAII<T>`, `test_01` .. `test_05`),
* `GenericLambdas` (the recursive lambdas of `test_10` .. `test_13`, `std::find_if` with the
  predicates of `test_04` and `test_05`),
* `VariadicTemplatesSystematic` (`print`, `printDoubled`, `printFiveTimes`, `printPlusOne`),
* `Decltype` (the vector of `test_02`),
followed by the properties established about them.

A `std::string` is the list of its `char`s; a C++ integer is an `Int` together with the
width of its type; a thrown exception is the `error` side of `Except`.
-/

namespace Exercises_UtilityClasses

/-! ## The standard-library conversions used by `Exercise_02` -/

/-- The two exception classes `std::stoi`, `std::stol` and `std::stoll` throw, which are also the
two handled by the `catch` clauses of `toInt` and `toNumber`. -/
inductive StdException where
  | invalid_argument
  | out_of_range
  deriving DecidableEq, Repr

instance {ε α : Type} [DecidableEq ε] [DecidableEq α] : DecidableEq (Except ε α)
  | .ok a, .ok b => if h : a = b then isTrue (by rw [h]) else isFalse (fun e => h (by cases e; rfl))
  | .error a, .error b =>
    if h : a = b then isTrue (by rw [h]) else isFalse (fun e => h (by cases e; rfl))
  | .ok _, .error _ => isFalse (fun e => by cases e)
  | .error _, .ok _ => isFalse (fun e => by cases e)

/-- `isspace` in the "C" locale: space, `\t`, `\n`, `\v`, `\f`, `\r`. -/
def isspace (c : Char) : Bool :=
  c.toNat == 32 || (9 ≤ c.toNat && c.toNat ≤ 13)

/-- `isdigit`: the ten decimal digits. -/
def isdigit (c : Char) : Bool :=
  48 ≤ c.toNat && c.toNat ≤ 57

/-- Value of a decimal digit character. -/
def digitVal (c : Char) : Nat := c.toNat - 48

/-- The character of a decimal digit. -/
def digitChar (d : Nat) : Char := Char.ofNat (48 + d)

/-- Value denoted by a run of decimal digits, most significant first. -/
def digitsValue (ds : List Char) : Nat :=
  ds.foldl (fun acc c => acc * 10 + digitVal c) 0

/-- Decimal digits of a natural number, most significant first, no leading zero
(`fuel` bounds the number of digits produced). -/
def natDigits : Nat → Nat → List Char
  | 0, _ => []
  | fuel + 1, n =>
    if n < 10 then [digitChar n] else natDigits fuel (n / 10) ++ [digitChar (n % 10)]

/-- The function `std::to_string` on a signed integer: a minus sign for a negative value, then
the decimal digits of the magnitude. -/
def to_string (i : Int) : List Char :=
  if i < 0 then '-' :: natDigits (i.natAbs + 1) i.natAbs
  else natDigits (i.natAbs + 1) i.natAbs

/-- Smallest value of a signed two's-complement integer type of `bits` bits. -/
def minOf (bits : Nat) : Int := -(2 : Int) ^ (bits - 1)

/-- Largest value of a signed two's-complement integer type of `bits` bits. -/
def maxOf (bits : Nat) : Int := (2 : Int) ^ (bits - 1) - 1

/-- Whether `v` is representable in a signed integer type of `bits` bits. -/
def representable (bits : Nat) (v : Int) : Prop := minOf bits ≤ v ∧ v ≤ maxOf bits

instance (bits : Nat) (v : Int) : Decidable (representable bits v) := by
  unfold representable; infer_instance

/-- The sign recognised by `strtol` after the white space: `(negative, rest, characters used)`. -/
def takeSign : List Char → Bool × List Char × Nat
  | '-' :: t => (true, t, 1)
  | '+' :: t => (false, t, 1)
  | r => (false, r, 0)

/-- The conversions `std::stoi` / `std::stol` / `std::stoll` in base 10 for a result type of
`bits` bits: skip white space, take an optional sign, take the longest run of decimal digits.
No digit: `std::invalid_argument`. Value not representable: `std::out_of_range`. Otherwise the
value and the number of characters processed (the `pos` of the library call). -/
def sto (bits : Nat) (s : List Char) : Except StdException (Int × Nat) :=
  let ws := s.takeWhile isspace
  let r1 := s.dropWhile isspace
  let (neg, r2, signLen) := takeSign r1
  let ds := r2.takeWhile isdigit
  if ds = [] then
    .error .invalid_argument
  else
    let mag : Int := digitsValue ds
    let v : Int := if neg then -mag else mag
    if representable bits v then
      .ok (v, ws.length + signLen + ds.length)
    else
      .error .out_of_range

/-- Whether a string starts with a decimal digit. -/
def startsWithDigit : List Char → Bool
  | c :: _ => isdigit c
  | [] => false

/-- What is left of `s` after the optional white space and the optional sign. -/
def afterSign (s : List Char) : List Char := (takeSign (s.dropWhile isspace)).2.1

/-- Invalid format: after optional white space and an optional sign, `s` does not start with a
decimal digit. -/
def invalidFormat (s : List Char) : Prop := startsWithDigit (afterSign s) = false

instance (s : List Char) : Decidable (invalidFormat s) := by
  unfold invalidFormat; infer_instance

/-- The value denoted by the leading decimal numeral of `s`, sign included. -/
def leadingNumeral (s : List Char) : Int :=
  let mag : Int := digitsValue ((afterSign s).takeWhile isdigit)
  if (takeSign (s.dropWhile isspace)).1 then -mag else mag

/-- Number of characters of `s` that make up white space, sign and leading numeral. -/
def numeralEnd (s : List Char) : Nat :=
  (s.takeWhile isspace).length + (takeSign (s.dropWhile isspace)).2.2
    + ((afterSign s).takeWhile isdigit).length

/-- The call `std::stoi(s)`: the result type `int` has 32 bits. -/
def stoi (s : List Char) : Except StdException (Int × Nat) := sto 32 s

/-- The call `std::stoll(s)`: the result type `long long` has 64 bits. -/
def stoll (s : List Char) : Except StdException (Int × Nat) := sto 64 s

/-- The call `std::stol(s)`; the width of `long` is fixed by the platform (32 under LLP64,
64 under LP64) and is a parameter. -/
def stol (longBits : Nat) (s : List Char) : Except StdException (Int × Nat) := sto longBits s

/-- Conversion of an integer value to a signed type of `bits` bits (the value modulo `2^bits`,
read in two's complement). -/
def castTo (bits : Nat) (v : Int) : Int :=
  let m : Int := (2 : Int) ^ bits
  let r := v % m
  if r ≤ maxOf bits then r else r - m

/-- The operator `+` on two `int`s. An overflow is undefined in C++; the model takes the result
of two's complement hardware, the sum modulo `2^32`. -/
def int_add (a b : Int) : Int := castTo 32 (a + b)

/-- The operator `-` on two `int`s, modulo `2^32` like `int_add`. -/
def int_sub (a b : Int) : Int := castTo 32 (a - b)

/-- The operator `*` on two `int`s, modulo `2^32` like `int_add`. -/
def int_mul (a b : Int) : Int := castTo 32 (a * b)

namespace Exercise_02

/-- The body of the `try` block of `toInt`. -/
def toIntTry (s : List Char) : Except StdException (Option Int) := do
  let (i, _) ← stoi s
  let tmp := to_string i
  if tmp.length ≠ s.length then
    throw StdException.invalid_argument
  pure (some i)

/-- The function `Exercise_02::toInt`: `result` starts as `std::nullopt`; both handlers leave
it so (their `std::cerr` line is not modelled); an exception of any other kind would
propagate, which is the `error` side of the result. -/
def toInt (s : List Char) : Except StdException (Option Int) :=
  match toIntTry s with
  | .ok r => .ok r
  | .error .invalid_argument => .ok none
  | .error .out_of_range => .ok none

/-- The target types of `toNumber<T>` treated by its `if constexpr` branches. -/
inductive NumT where
  | short
  | int
  | long
  | longLong
  deriving DecidableEq, Repr

/-- Width of each target type; the width of `long` is the platform parameter. -/
def NumT.bits (longBits : Nat) : NumT → Nat
  | .short => 16
  | .int => 32
  | .long => longBits
  | .longLong => 64

/-- The body of the `try` block of `toNumber<T>`: the three `if constexpr` blocks in order. In
the first one `result.emplace(i)` builds a `T` from the `int` value `i`. -/
def toNumberTry (longBits : Nat) (T : NumT) (s : List Char) :
    Except StdException (Option Int) := do
  let mut result : Option Int := none
  if T = NumT.int ∨ T = NumT.short then
    let (i, _) ← stoi s
    let tmp := to_string i
    if tmp.length ≠ s.length then
      throw StdException.invalid_argument
    result := some (castTo (NumT.bits longBits T) i)
  if T = NumT.long then
    let (l, _) ← stol longBits s
    let tmp := to_string l
    if tmp.length ≠ s.length then
      throw StdException.invalid_argument
    result := some l
  if T = NumT.longLong then
    let (ll, _) ← stoll s
    let tmp := to_string ll
    if tmp.length ≠ s.length then
      throw StdException.invalid_argument
    result := some ll
  pure result

/-- The function template `Exercise_02::toNumber<T>`, with the same two handlers as `toInt`. -/
def toNumber (longBits : Nat) (T : NumT) (s : List Char) : Except StdException (Option Int) :=
  match toNumberTry longBits T s with
  | .ok r => .ok r
  | .error .invalid_argument => .ok none
  | .error .out_of_range => .ok none

end Exercise_02

end Exercises_UtilityClasses

/-! ## `Exercise_03`: the heterogeneous container and its visitors -/

namespace Exercises_UtilityClasses.Exercise_03

/-- The type `std::variant<int, std::string>`: a slot holds exactly one of the two
alternatives. -/
inductive Variant where
  | int (value : Int)
  | string (value : List Char)
  deriving DecidableEq, Repr

/-- A visitor: a callable with one overload per alternative. It receives the stored value by
reference, so a call yields the value the slot holds afterwards, and it acts on its
surroundings `σ` (the console, its own members). -/
structure Visitor (σ : Type) where
  onInt : Int → σ → Int × σ
  onString : List Char → σ → List Char × σ

/-- The call `std::visit(visitor, value)`: invokes the overload for the alternative held. -/
def std_visit {σ : Type} (visitor : Visitor σ) (value : Variant) (st : σ) : Variant × σ :=
  match value with
  | .int x => let r := visitor.onInt x st; (.int r.1, r.2)
  | .string t => let r := visitor.onString t st; (.string r.1, r.2)

/-- A visitor whose overloads take `const T&`: the stored value cannot change. -/
def constVisitor {σ : Type} (onInt : Int → σ → σ) (onString : List Char → σ → σ) : Visitor σ where
  onInt := fun x st => (x, onInt x st)
  onString := fun t st => (t, onString t st)

/-- The manipulator `std::endl` as far as the text goes: a line feed. -/
def endl : List Char := ['\n']

/-- The visitor `MyPrintVisitor`; the state is the text written to `std::cout` so far. -/
def MyPrintVisitor : Visitor (List Char) :=
  constVisitor (fun value out => out ++ "int: ".toList ++ to_string value ++ endl)
    (fun value out => out ++ "std::string: ".toList ++ value ++ endl)

/-- The visitor `AllInOneVisitor`: one template overload, `std::cout << value << std::endl`. -/
def AllInOneVisitor : Visitor (List Char) :=
  constVisitor (fun value out => out ++ to_string value ++ endl)
    (fun value out => out ++ value ++ endl)

/-- The generic lambda `lambdaAllInOneVisitor`, same body as `AllInOneVisitor`. -/
def lambdaAllInOneVisitor : Visitor (List Char) :=
  constVisitor (fun value out => out ++ to_string value ++ endl)
    (fun value out => out ++ value ++ endl)

/-- The class template `HeterogeneousContainer<int, std::string>`: its one member is the
vector of variants. -/
structure HeterogeneousContainer where
  m_values : List Variant
  deriving DecidableEq, Repr

/-- A default-constructed container: the vector is empty. -/
def HeterogeneousContainer.empty : HeterogeneousContainer := ⟨[]⟩

/-- The range-based `for` of `visit`, over the slots not yet visited. -/
def visitLoop {σ : Type} (visitor : Visitor σ) : List Variant → σ → List Variant × σ
  | [], st => ([], st)
  | value :: rest, st =>
    let r := std_visit visitor value st
    let r2 := visitLoop visitor rest r.2
    (r.1 :: r2.1, r2.2)

/-- The member function `HeterogeneousContainer::visit`. -/
def HeterogeneousContainer.visit {σ : Type} (c : HeterogeneousContainer) (visitor : Visitor σ)
    (st : σ) : HeterogeneousContainer × σ :=
  let r := visitLoop visitor c.m_values st
  (⟨r.1⟩, r.2)

/-- The accessor `Values()`: the vector itself. -/
def HeterogeneousContainer.Values (c : HeterogeneousContainer) : List Variant := c.m_values

/-- The statement `c.Values().emplace_back(v)`: `v` becomes the last element of the vector. -/
def HeterogeneousContainer.emplace_back (c : HeterogeneousContainer) (v : Variant) :
    HeterogeneousContainer :=
  ⟨c.Values ++ [v]⟩

/-- One invocation of a visitor: which overload ran and on which value. -/
inductive Call where
  | intOverload (arg : Int)
  | stringOverload (arg : List Char)
  deriving DecidableEq, Repr

/-- The invocation that matches the alternative a slot holds. -/
def Call.matching : Variant → Call
  | .int x => .intOverload x
  | .string t => .stringOverload t

/-- A visitor instrumented to record each of its invocations, in order, next to its own
state. -/
def recording {σ : Type} (visitor : Visitor σ) : Visitor (σ × List Call) where
  onInt := fun x st =>
    let r := visitor.onInt x st.1
    (r.1, (r.2, st.2 ++ [Call.intOverload x]))
  onString := fun t st =>
    let r := visitor.onString t st.1
    (r.1, (r.2, st.2 ++ [Call.stringOverload t]))

/-- What `MyPrintVisitor` writes for one value. -/
def MyPrintVisitor.rendering : Variant → List Char
  | .int x => "int: ".toList ++ to_string x ++ endl
  | .string t => "std::string: ".toList ++ t ++ endl

/-- What `lambdaAllInOneVisitor` (and `AllInOneVisitor`) writes for one value. -/
def lambdaAllInOneVisitor.rendering : Variant → List Char
  | .int x => to_string x ++ endl
  | .string t => t ++ endl

/-- The visitor `MyModifyingVisitor`: one template overload, `value += value`, which is `int`
addition for an `int` and concatenation for a `std::string`; nothing is written. -/
def MyModifyingVisitor : Visitor Unit where
  onInt := fun value st => (int_add value value, st)
  onString := fun value st => (value ++ value, st)

/-- What a slot holds once its value has been added to itself, in exact arithmetic. -/
def Variant.doubled : Variant → Variant
  | .int x => .int (x + x)
  | .string t => .string (t ++ t)

/-- Whether two slots hold the same alternative. -/
def Variant.sameAlternative : Variant → Variant → Bool
  | .int _, .int _ => true
  | .string _, .string _ => true
  | _, _ => false

/-- The container of `testExercise_01c` and `testExercise_01d`: `12`, `"34"`, `56`, `"78"`. -/
def testContent : List Variant :=
  [.int 12, .string "34".toList, .int 56, .string "78".toList]

end Exercises_UtilityClasses.Exercise_03

/-! ## `RAIIDemo`: the wrapper `RAII<T>` and its demonstrations -/

namespace RAIIDemo

/-- What a run does that can be observed, in the order it happens. -/
inductive Event where
  | new (p : Nat) (value : Int)
  | delete (p : Nat)
  | sayHello (p : Nat)
  | cout (line : List Char)
  deriving DecidableEq, Repr

/-- Modelled from the spec: class `Dummy` of `Global/Dummy.h`, which is not among the sources,
is the "heap-owned object" of the demonstrations. It is taken as an object holding the `int` it
is constructed with (what `getValue` returns); whatever its constructor, its destructor and
`sayHello` print is stood for by the events `new`, `delete` and `sayHello`. -/
structure Dummy where
  value : Int
  deriving DecidableEq, Repr

/-- The state of a run: the next free address, the objects alive on the heap, and the events so
far. -/
structure State where
  next : Nat
  heap : List (Nat × Dummy)
  trace : List Event
  deriving DecidableEq, Repr

/-- The expression `new Dummy(value)`: a fresh address, now holding the object. -/
def new_Dummy (value : Int) (st : State) : Nat × State :=
  (st.next,
    { next := st.next + 1
      heap := (st.next, ⟨value⟩) :: st.heap
      trace := st.trace ++ [Event.new st.next value] })

/-- The expression `delete p`: the object at `p` is destroyed and its storage released. -/
def delete (p : Nat) (st : State) : State :=
  { st with
    heap := st.heap.filter (fun o => o.1 != p)
    trace := st.trace ++ [Event.delete p] }

/-- A line written to `std::cout`. -/
def cout (line : List Char) (st : State) : State :=
  { st with trace := st.trace ++ [Event.cout line] }

/-- The call `p->sayHello()` on the object at `p`. -/
def sayHello (p : Nat) (st : State) : State :=
  { st with trace := st.trace ++ [Event.sayHello p] }

/-- The call `p->getValue()` on the object at `p` (`0` stands for the indeterminate result of
reading an object that is not alive). -/
def getValue (p : Nat) (st : State) : Int :=
  match st.heap.find? (fun o => o.1 == p) with
  | some o => o.2.value
  | none => 0

/-- How a statement completes: it falls through, it leaves the enclosing loop with `break`, or
it throws an `int`. -/
inductive Completion where
  | normal
  | breaks
  | throws (n : Int)
  deriving DecidableEq, Repr

/-- A piece of code: from a state to the way it completes and the state it leaves. -/
abbrev Code := State → Completion × State

/-- Sequencing: the second statement runs only when the first one falls through. -/
def seq (a b : Code) : Code := fun st =>
  match a st with
  | (Completion.normal, st1) => b st1
  | r => r

/-- A statement that only acts on the state and falls through. -/
def stmt (f : State → State) : Code := fun st => (Completion.normal, f st)

/-- A block whose first declaration is an automatic object: `init` constructs it, `body` is
the rest of the block, and the destructor `dtor` runs when control leaves the block, whichever
way `body` completed (falling off the end, `break`, or an exception unwinding the stack). The
completion is passed on to the enclosing code. -/
def block {α : Type} (dtor : α → State → State) (init : State → α × State)
    (body : α → Code) : Code := fun st =>
  let o := init st
  let r := body o.1 o.2
  (r.1, dtor o.1 r.2)

/-- The statement `do body while (false);`: the body runs once; a `break` in it ends the loop
normally. -/
def doWhileFalse (body : Code) : Code := fun st =>
  match body st with
  | (Completion.breaks, st1) => (Completion.normal, st1)
  | r => r

/-- The statement `try body catch (int n) handler`. -/
def try_catch (body : Code) (handler : Int → Code) : Code := fun st =>
  match body st with
  | (Completion.throws n, st1) => handler n st1
  | r => r

/-- The class template `RAII<T>` at `T = Dummy`: its one member is the raw pointer. -/
structure RAII where
  m_p : Nat
  deriving DecidableEq, Repr

/-- The constructor `explicit RAII (T* p) : m_p(p) {}`. -/
def RAII.ctor (p : Nat) : RAII := ⟨p⟩

/-- The destructor `~RAII() { delete m_p; }`. -/
def RAII.dtor (self : RAII) (st : State) : State := delete self.m_p st

/-- The member `operator->`: the pointer held. -/
def RAII.arrow (self : RAII) : Nat := self.m_p

/-- The member `operator&`: a reference to the object pointed to. -/
def RAII.deref (self : RAII) : Nat := self.m_p

/-- The copy constructor the compiler generates for `RAII<T>` (none is declared, none is
deleted): the member is copied. -/
def RAII.copy_ctor (other : RAII) : RAII := ⟨other.m_p⟩

/-- The copy assignment operator the compiler generates for `RAII<T>`: the member is
assigned. -/
def RAII.copy_assign (_self other : RAII) : RAII := ⟨other.m_p⟩

/-- The declaration `RAII<Dummy> p (new Dummy (value));`. -/
def declare_RAII (value : Int) (st : State) : RAII × State :=
  let a := new_Dummy value st
  (RAII.ctor a.1, a.2)

/-- The function `test_01`. -/
def test_01 : Code :=
  seq (block RAII.dtor (declare_RAII 1) (fun _ => stmt id))
    (stmt (cout "Done.".toList))

/-- The line `"Value " << value << " inside Dummy object."`. -/
def valueLine (value : Int) : List Char :=
  "Value ".toList ++ Exercises_UtilityClasses.to_string value ++ " inside Dummy object.".toList

/-- The function `test_02`. -/
def test_02 : Code :=
  seq (block RAII.dtor (declare_RAII 2) (fun p =>
      seq (stmt (sayHello p.arrow))
        (seq (stmt (fun st => cout (valueLine (getValue p.arrow st)) st))
          (seq (stmt (sayHello p.deref))
            (stmt (fun st => cout (valueLine (getValue p.deref st)) st))))))
    (stmt (cout "Done.".toList))

/-- The function `test_03`. -/
def test_03 : Code :=
  seq (doWhileFalse (block RAII.dtor (declare_RAII 3) (fun _ st => (Completion.breaks, st))))
    (stmt (cout "Done.".toList))

/-- The function `test_04`. -/
def test_04 : Code :=
  seq (try_catch (block RAII.dtor (declare_RAII 4) (fun _ st => (Completion.throws 99, st)))
      (fun n => stmt (cout ("Exception ".toList ++ Exercises_UtilityClasses.to_string n
        ++ " occurred!".toList))))
    (stmt (cout "Done.".toList))

/-- The class `RAIIContainer`: its one member is a `RAII<Dummy>`. -/
structure RAIIContainer where
  m_rp : RAII
  deriving DecidableEq, Repr

/-- The constructor `RAIIContainer(Dummy* p) : m_rp(p) {}`. -/
def RAIIContainer.ctor (p : Nat) : RAIIContainer := ⟨RAII.ctor p⟩

/-- The destructor the compiler generates for `RAIIContainer`: it destroys the member. -/
def RAIIContainer.dtor (self : RAIIContainer) (st : State) : State := self.m_rp.dtor st

/-- The declaration `RAIIContainer cont (new Dummy(value));`. -/
def declare_RAIIContainer (value : Int) (st : State) : RAIIContainer × State :=
  let a := new_Dummy value st
  (RAIIContainer.ctor a.1, a.2)

/-- The function `test_05`. -/
def test_05 : Code :=
  seq (block RAIIContainer.dtor (declare_RAIIContainer 5) (fun _ => stmt id))
    (stmt (cout "Done.".toList))

/-- An operation the class `RAII<Dummy>` permits on its objects. Wrappers are numbered in the
order they come to life. A construction is the one of the demonstrations, from a fresh
allocation. -/
inductive Op where
  /-- The declaration `RAII<Dummy> w (new Dummy (value));`. -/
  | construct (value : Int)
  /-- The declaration `RAII<Dummy> w (src);`. -/
  | copy_construct (src : Nat)
  /-- The statement `dst = src;`. -/
  | copy_assign (dst src : Nat)
  /-- The end of the lifetime of wrapper `w`: its destructor runs. -/
  | destroy (w : Nat)
  deriving DecidableEq, Repr

/-- Whether an operation copies a wrapper. -/
def Op.isCopy : Op → Bool
  | .copy_construct _ => true
  | .copy_assign _ _ => true
  | _ => false

/-- A run state together with the wrappers created so far: `some` while a wrapper is alive,
`none` once it has been destroyed. -/
structure World where
  st : State
  wrappers : List (Option RAII)
  deriving DecidableEq, Repr

/-- Nothing allocated, nothing written, no wrapper. -/
def World.init : World := ⟨⟨0, [], []⟩, []⟩

/-- One operation; `none` when it names a wrapper that is not alive. -/
def step : Op → World → Option World
  | .construct value, w =>
    let r := declare_RAII value w.st
    some ⟨r.2, w.wrappers ++ [some r.1]⟩
  | .copy_construct src, w =>
    match w.wrappers[src]? with
    | some (some other) => some ⟨w.st, w.wrappers ++ [some (RAII.copy_ctor other)]⟩
    | _ => none
  | .copy_assign dst src, w =>
    match w.wrappers[dst]?, w.wrappers[src]? with
    | some (some self), some (some other) =>
      some ⟨w.st, w.wrappers.set dst (some (RAII.copy_assign self other))⟩
    | _, _ => none
  | .destroy i, w =>
    match w.wrappers[i]? with
    | some (some self) => some ⟨self.dtor w.st, w.wrappers.set i none⟩
    | _ => none

/-- A sequence of operations, from left to right. -/
def run : List Op → World → Option World
  | [], w => some w
  | op :: ops, w => (step op w).bind (run ops)

/-- Number of living wrappers that hold the address `p`. -/
def owners (p : Nat) (w : World) : Nat := w.wrappers.count (some ⟨p⟩)

/-- Number of times the address `p` has been passed to `delete`. -/
def releases (p : Nat) (w : World) : Nat := w.st.trace.count (Event.delete p)

/-- Every address handed out so far is either held by exactly one living wrapper and not yet
released, or held by none and released exactly once; no other address is held or released. -/
def World.consistent (w : World) : Prop :=
  ∀ p, (p < w.st.next → owners p w + releases p w = 1)
    ∧ (w.st.next ≤ p → owners p w = 0 ∧ releases p w = 0)

/-- The events a piece of code adds to the trace when run from `st`. -/
def events (c : Code) (st : State) : List Event := (c st).2.trace.drop st.trace.length

end RAIIDemo

/-! ## `GenericLambdas`: recursive lambdas and lambdas as predicates -/

namespace GenericLambdas

open Exercises_UtilityClasses

/-- The body of the lambda assigned to `power` in `test_10`; `power` is the `std::function` it
captures by reference and calls. -/
def test_10.body (power : Int → Int → Option Int) (base exp : Int) : Option Int :=
  if exp = 0 then some 1 else (power base (int_sub exp 1)).map (fun r => int_mul base r)

/-- The `std::function` named `power` of `test_10`. The first argument is the number of nested
calls the stack has room for (a call multiplies only after the inner call has returned, so
every level of the recursion keeps its frame): `none` when that room is used up before the
recursion ends. -/
def test_10.power : Nat → Int → Int → Option Int
  | 0, _, _ => none
  | fuel + 1, base, exp => test_10.body (test_10.power fuel) base exp

/-- The body of the generic lambda `power` of `test_12` at `base : int`; `self` stands for the
call `self(self, ...)`. The result type `decltype(base)` is `int`. -/
def test_12.body (self : Int → Int → Option Int) (base exp : Int) : Option Int :=
  if exp = 0 then some 1 else (self base (int_sub exp 1)).map (fun r => int_mul base r)

/-- The call `power(power, base, exp)` of `test_12`; the first argument is the number of nested
calls the stack has room for, as for `test_10.power`. -/
def test_12.power : Nat → Int → Int → Option Int
  | 0, _, _ => none
  | fuel + 1, base, exp => test_12.body (test_12.power fuel) base exp

/-- The body of the lambda assigned to `factorial` in `test_11`. -/
def test_11.body (factorial : Int → Option Int) (n : Int) : Option Int :=
  if n < 2 then some 1 else (factorial (int_sub n 1)).map (fun r => int_mul n r)

/-- The `std::function` named `factorial` of `test_11`, with a bound on the depth of the
recursion. -/
def test_11.factorial : Nat → Int → Option Int
  | 0, _ => none
  | fuel + 1, n => test_11.body (test_11.factorial fuel) n

/-- The body of the generic lambda `factorial` of `test_13`; `f` stands for the call
`f(f, ...)`. -/
def test_13.body (f : Int → Option Int) (n : Int) : Option Int :=
  if n < 2 then some 1 else (f (int_sub n 1)).map (fun r => int_mul n r)

/-- The call `factorial(factorial, n)` of `test_13`, with a bound on the depth of the
recursion. -/
def test_13.factorial : Nat → Int → Option Int
  | 0, _ => none
  | fuel + 1, n => test_13.body (test_13.factorial fuel) n

/-- The generic lambda `isGreaterThanFifty` of `test_04` at `int`. -/
def isGreaterThanFifty (n : Int) : Bool := decide (n > 50)

/-- The function template `isGreaterThanFiftyEx<int>` of `test_05`. -/
def isGreaterThanFiftyEx (n : Int) : Bool := decide (n > 50)

/-- The algorithm `std::find_if` over a whole vector: the position of the iterator returned,
counted from `begin`; the length of the vector is `end`. -/
def find_if (p : Int → Bool) : List Int → Nat
  | [] => 0
  | x :: rest => if p x then 0 else find_if p rest + 1

/-- What `test_04` and `test_05` do with the iterator: the element it points to, unless it is
`end`. -/
def found (p : Int → Bool) (xs : List Int) : Option Int := xs[find_if p xs]?

/-- The vector `intValues` of `test_04` and `test_05`. -/
def intValues : List Int := [44, 65, 22, 77, 2]

end GenericLambdas

/-! ## `VariadicTemplatesSystematic`: pack expansions -/

namespace VariadicTemplatesSystematic

open Exercises_UtilityClasses

/-- The overload `print(T arg)` at `int`: the argument and a line feed go to `std::cout`. -/
def print_one (arg : Int) (out : List Char) : List Char := out ++ to_string arg ++ ['\n']

/-- The overload `print(T firstArg, Types... args)` with the pack `args` made of `a` and
`rest`: `print(firstArg)` is the one-argument overload, `print(args...)` is again this overload
unless the pack has one element. -/
def print_pack : Int → Int → List Int → List Char → List Char
  | firstArg, a, [], out => print_one a (print_one firstArg out)
  | firstArg, a, b :: rest, out => print_pack a b rest (print_one firstArg out)

/-- A call `print(e...)` on the expanded pack: no overload takes zero arguments (`none`), the
one-argument overload is preferred for one argument. -/
def print : List Int → List Char → Option (List Char)
  | [], _ => none
  | [a], out => some (print_one a out)
  | a :: b :: rest, out => some (print_pack a b rest out)

/-- The function template `printDoubled` on `int` arguments: the two `print` calls in a row. -/
def printDoubled (args : List Int) (out : List Char) : Option (List Char) :=
  (print (args.map (fun a => int_add a a)) out).bind
    (fun out1 => print (args.map (fun a => int_add a a)) out1)

/-- The function template `printFiveTimes` on `int` arguments. -/
def printFiveTimes (args : List Int) (out : List Char) : Option (List Char) :=
  print (args.map (fun a => int_mul 5 a)) out

/-- The function template `printPlusOne` on `int` arguments. -/
def printPlusOne (args : List Int) (out : List Char) : Option (List Char) :=
  print (args.map (fun a => int_add a 1)) out

/-- The text of a list of values, one per line. -/
def lines (vs : List Int) : List Char := (vs.map (fun v => to_string v ++ ['\n'])).flatten

end VariadicTemplatesSystematic

/-! ## `Decltype`: the vector of `test_02` -/

namespace Decltype

/-- The expression `vec[i] = value` on a `std::vector<int>`: `operator[]` does no bounds check;
an index outside `[0, size)` has no element to refer to and the behaviour is undefined
(`none`). -/
def subscript_assign (vec : List Int) (i : Nat) (value : Int) : Option (List Int) :=
  if i < vec.length then some (vec.set i value) else none

/-- The statements of `test_02` that are evaluated on the vector: `std::vector<int> vec;`
followed by `vec[0] = 123;`. Every other `vec[0]` of the function stands inside `decltype`,
which does not evaluate its operand. -/
def test_02 : Option (List Int) :=
  let vec : List Int := []
  subscript_assign vec 0 123

/-- The element accesses by index that `test_02` evaluates, each with the size of the vector at
that time: `(index, size)`. -/
def test_02.accesses : List (Nat × Nat) :=
  let vec : List Int := []
  [(0, vec.length)]

end Decltype

/-! # Properties

## Decimal digits: rendering and reading back -/

namespace Exercises_UtilityClasses

theorem digitVal_digitChar {d : Nat} (h : d < 10) : digitVal (digitChar d) = d := by
  interval_cases d <;> rfl

theorem isdigit_digitChar {d : Nat} (h : d < 10) : isdigit (digitChar d) = true := by
  interval_cases d <;> rfl

theorem digitChar_toNat {d : Nat} (h : d < 10) : (digitChar d).toNat = 48 + d := by
  interval_cases d <;> rfl

theorem digitVal_lt_of_isdigit {c : Char} (h : isdigit c = true) : digitVal c < 10 := by
  simp only [isdigit, Bool.and_eq_true, decide_eq_true_eq] at h
  unfold digitVal
  omega

theorem isspace_of_isdigit {c : Char} (h : isdigit c = true) : isspace c = false := by
  simp only [isdigit, Bool.and_eq_true, decide_eq_true_eq] at h
  simp only [isspace, Bool.or_eq_false_iff, beq_eq_false_iff_ne, ne_eq, Bool.and_eq_false_iff,
    decide_eq_false_iff_not]
  omega

theorem digitsValue_snoc (l : List Char) (c : Char) :
    digitsValue (l ++ [c]) = digitsValue l * 10 + digitVal c := by
  simp [digitsValue, List.foldl_append]

theorem natDigits_ne_nil (fuel n : Nat) : natDigits (fuel + 1) n ≠ [] := by
  unfold natDigits
  split <;> simp

theorem isdigit_of_mem_natDigits (fuel n : Nat) :
    ∀ c ∈ natDigits fuel n, isdigit c = true := by
  induction fuel generalizing n with
  | zero => simp [natDigits]
  | succ f ih =>
    intro c hc
    unfold natDigits at hc
    split at hc
    · rename_i hlt
      simp only [List.mem_singleton] at hc
      subst hc
      exact isdigit_digitChar hlt
    · rcases List.mem_append.1 hc with h | h
      · exact ih _ c h
      · simp only [List.mem_singleton] at h
        subst h
        exact isdigit_digitChar (Nat.mod_lt _ (by norm_num))

theorem digitsValue_natDigits (fuel n : Nat) (h : n < fuel) :
    digitsValue (natDigits fuel n) = n := by
  induction fuel generalizing n with
  | zero => omega
  | succ f ih =>
    unfold natDigits
    split
    · rename_i hlt
      simp [digitsValue, digitVal_digitChar hlt]
    · rw [digitsValue_snoc, ih (n / 10) (by omega),
        digitVal_digitChar (Nat.mod_lt _ (by norm_num))]
      omega

theorem natDigits_length_le (fuel n k : Nat) (hk : n < 10 ^ (k + 1)) :
    (natDigits fuel n).length ≤ k + 1 := by
  induction fuel generalizing n k with
  | zero => simp [natDigits]
  | succ f ih =>
    unfold natDigits
    split
    · simp
    · rename_i hge
      cases k with
      | zero => simp at hk; omega
      | succ k =>
        have : n / 10 < 10 ^ (k + 1) := by
          rw [Nat.div_lt_iff_lt_mul (by norm_num)]
          simpa [pow_succ] using hk
        have := ih (n / 10) k this
        simp only [List.length_append, List.length_singleton]
        omega

theorem digitsValue_lt (ds : List Char) (h : ∀ c ∈ ds, isdigit c = true) :
    digitsValue ds < 10 ^ ds.length := by
  induction ds using List.reverseRecOn with
  | nil => simp [digitsValue]
  | append_singleton l c ih =>
    rw [digitsValue_snoc]
    have hl := ih (fun x hx => h x (List.mem_append_left _ hx))
    have hc := digitVal_lt_of_isdigit (h c (by simp))
    simp only [List.length_append, List.length_singleton, pow_succ]
    omega

end Exercises_UtilityClasses

/-! ## The conversions `sto*` on arbitrary and on canonical input -/

namespace Exercises_UtilityClasses

theorem takeWhile_isdigit_eq_nil_iff (r : List Char) :
    r.takeWhile isdigit = [] ↔ startsWithDigit r = false := by
  cases r with
  | nil => simp [startsWithDigit]
  | cons c t =>
    by_cases h : isdigit c = true <;> simp [List.takeWhile, startsWithDigit, h]

theorem sto_eq (bits : Nat) (s : List Char) :
    sto bits s =
      if startsWithDigit (afterSign s) = false then .error .invalid_argument
      else if representable bits (leadingNumeral s) then .ok (leadingNumeral s, numeralEnd s)
      else .error .out_of_range := by
  unfold sto leadingNumeral numeralEnd afterSign
  simp only [takeWhile_isdigit_eq_nil_iff]

theorem startsWithDigit_natDigits (fuel n : Nat) :
    startsWithDigit (natDigits (fuel + 1) n) = true := by
  have hne := natDigits_ne_nil fuel n
  have hall := isdigit_of_mem_natDigits (fuel + 1) n
  cases hd : natDigits (fuel + 1) n with
  | nil => exact absurd hd hne
  | cons c t =>
    rw [hd] at hall
    exact hall c (by simp)

theorem takeWhile_isdigit_natDigits (fuel n : Nat) :
    (natDigits fuel n).takeWhile isdigit = natDigits fuel n :=
  List.takeWhile_eq_self_iff.2 (isdigit_of_mem_natDigits fuel n)

theorem takeSign_of_startsWithDigit {r : List Char} (h : startsWithDigit r = true) :
    takeSign r = (false, r, 0) := by
  unfold takeSign
  split
  · exact absurd h (by simp [startsWithDigit, isdigit])
  · exact absurd h (by simp [startsWithDigit, isdigit])
  · rfl

theorem isspace_head_of_startsWithDigit {r : List Char} (h : startsWithDigit r = true) :
    r.takeWhile isspace = [] ∧ r.dropWhile isspace = r := by
  cases r with
  | nil => simp
  | cons c t =>
    have hc : isspace c = false := isspace_of_isdigit h
    simp [List.takeWhile, List.dropWhile, hc]

/-- The shape of `sto` on the output of `to_string`: no white space, a sign exactly for negative
values, then the digits of the magnitude, all of them consumed. -/
theorem sto_parts_to_string (i : Int) :
    leadingNumeral (to_string i) = i ∧ numeralEnd (to_string i) = (to_string i).length
      ∧ startsWithDigit (afterSign (to_string i)) = true := by
  have hD := startsWithDigit_natDigits i.natAbs i.natAbs
  have hV := digitsValue_natDigits (i.natAbs + 1) i.natAbs (by omega)
  have hT := takeWhile_isdigit_natDigits (i.natAbs + 1) i.natAbs
  by_cases hneg : i < 0
  · have hs : to_string i = '-' :: natDigits (i.natAbs + 1) i.natAbs := by
      simp [to_string, hneg]
    have hsp : isspace '-' = false := by decide
    have hts : takeSign ('-' :: natDigits (i.natAbs + 1) i.natAbs)
        = (true, natDigits (i.natAbs + 1) i.natAbs, 1) := rfl
    refine ⟨?_, ?_, ?_⟩
    · simp only [leadingNumeral, afterSign, hs, List.dropWhile, hsp, hts, hT, hV]
      simp only [if_true]
      omega
    · simp only [numeralEnd, afterSign, hs, List.dropWhile, List.takeWhile, hsp, hts, hT,
        List.length_cons, List.length_nil]
      omega
    · simpa only [afterSign, hs, List.dropWhile, hsp, hts] using hD
  · have hs : to_string i = natDigits (i.natAbs + 1) i.natAbs := by
      simp [to_string, hneg]
    obtain ⟨hw, hd⟩ := isspace_head_of_startsWithDigit hD
    have hts := takeSign_of_startsWithDigit hD
    refine ⟨?_, ?_, ?_⟩
    · simp only [leadingNumeral, afterSign, hs, hd, hts, hT, hV]
      simp only [Bool.false_eq_true, if_false]
      omega
    · simp only [numeralEnd, afterSign, hs, hd, hw, hts, hT, List.length_nil]
      omega
    · simpa only [afterSign, hs, hd, hts] using hD

theorem sto_to_string (bits : Nat) (i : Int) (h : representable bits i) :
    sto bits (to_string i) = .ok (i, (to_string i).length) := by
  obtain ⟨hv, hn, hd⟩ := sto_parts_to_string i
  rw [sto_eq, hv, hn, hd]
  simp [h]

theorem takeSign_len_of_neg (r : List Char) (h : (takeSign r).1 = true) :
    (takeSign r).2.2 = 1 := by
  unfold takeSign at h ⊢
  split <;> simp_all

/-- The canonical rendering of the value of a numeral is never longer than the numeral. -/
theorem to_string_length_le_numeralEnd (s : List Char)
    (hd : startsWithDigit (afterSign s) = true) :
    (to_string (leadingNumeral s)).length ≤ numeralEnd s := by
  have hall : ∀ c ∈ (afterSign s).takeWhile isdigit, isdigit c = true :=
    fun c hc => List.mem_takeWhile_imp hc
  have hne : (afterSign s).takeWhile isdigit ≠ [] := by
    rw [ne_eq, takeWhile_isdigit_eq_nil_iff, hd]; simp
  obtain ⟨k, hk⟩ : ∃ k, ((afterSign s).takeWhile isdigit).length = k + 1 :=
    Nat.exists_eq_succ_of_ne_zero (by simpa using hne)
  have hlt := digitsValue_lt _ hall
  rw [hk] at hlt
  have hlen := fun fuel => natDigits_length_le fuel _ k hlt
  unfold leadingNumeral numeralEnd
  rw [hk]
  by_cases hneg : (takeSign (s.dropWhile isspace)).1 = true
  · have h1 := takeSign_len_of_neg _ hneg
    simp only [hneg, if_true, h1, to_string, Int.natAbs_neg, Int.natAbs_ofNat]
    split
    · have := hlen (digitsValue ((afterSign s).takeWhile isdigit) + 1)
      simp only [List.length_cons]
      omega
    · have := hlen (digitsValue ((afterSign s).takeWhile isdigit) + 1)
      omega
  · simp only [hneg, Bool.false_eq_true, if_false, to_string, Int.natAbs_ofNat]
    have hnn : ¬ ((digitsValue ((afterSign s).takeWhile isdigit) : Int) < 0) := by omega
    simp only [hnn, if_false]
    have := hlen (digitsValue ((afterSign s).takeWhile isdigit) + 1)
    omega

namespace Exercise_02

theorem toInt_eq (s : List Char) :
    toInt s =
      match stoi s with
      | .ok (i, _) => if (to_string i).length = s.length then .ok (some i) else .ok none
      | .error _ => .ok none := by
  unfold toInt toIntTry
  cases h : stoi s with
  | error e => cases e <;> rfl
  | ok r =>
    obtain ⟨i, pos⟩ := r
    by_cases hl : (to_string i).length = s.length
    · simp [hl, bind, Except.bind, pure, Except.pure]
    · simp [hl, bind, Except.bind, throw, throwThe, MonadExceptOf.throw]

end Exercise_02

end Exercises_UtilityClasses

namespace Exercises_UtilityClasses

theorem takeSign_length (r : List Char) :
    (takeSign r).2.2 + (takeSign r).2.1.length = r.length := by
  unfold takeSign
  split <;> simp <;> omega

theorem numeralEnd_le_length (s : List Char) : numeralEnd s ≤ s.length := by
  have h1 : (s.takeWhile isspace).length + (s.dropWhile isspace).length = s.length := by
    rw [← List.length_append, List.takeWhile_append_dropWhile]
  have h2 := takeSign_length (s.dropWhile isspace)
  have h3 : ((afterSign s).takeWhile isdigit).length ≤ (afterSign s).length :=
    (List.takeWhile_sublist _).length_le
  unfold numeralEnd
  unfold afterSign at h3 ⊢
  omega

theorem sto_ok {bits : Nat} {s : List Char} {i : Int} {pos : Nat}
    (h : sto bits s = .ok (i, pos)) :
    startsWithDigit (afterSign s) = true ∧ i = leadingNumeral s ∧ pos = numeralEnd s
      ∧ representable bits i := by
  rw [sto_eq] at h
  split at h
  · cases h
  · rename_i hd
    split at h
    · rename_i hr
      simp only [Except.ok.injEq, Prod.mk.injEq] at h
      obtain ⟨h1, h2⟩ := h
      subst h1 h2
      exact ⟨by simpa using hd, rfl, rfl, hr⟩
    · cases h

theorem representable_mono {a b : Nat} (ha : 0 < a) (hab : a ≤ b) {v : Int}
    (h : representable a v) : representable b v := by
  unfold representable minOf maxOf at *
  have hp : (2 : Int) ^ (a - 1) ≤ (2 : Int) ^ (b - 1) :=
    pow_le_pow_right₀ (by norm_num) (by omega)
  constructor <;> omega

theorem castTo_16 {v : Int} (h : representable 16 v) : castTo 16 v = v := by
  unfold representable minOf maxOf at h
  unfold castTo maxOf
  norm_num at h ⊢
  split <;> omega

theorem castTo_32 {v : Int} (h : representable 32 v) : castTo 32 v = v := by
  unfold representable minOf maxOf at h
  unfold castTo maxOf
  norm_num at h ⊢
  split <;> omega

end Exercises_UtilityClasses

namespace Exercises_UtilityClasses.Exercise_02

/-- Which `sto*` call `toNumber<T>` makes and what it stores. -/
theorem toNumber_eq (longBits : Nat) (T : NumT) (s : List Char) :
    toNumber longBits T s =
      match sto (if T = NumT.short then 32 else NumT.bits longBits T) s with
      | .ok (i, _) =>
        if (to_string i).length = s.length then
          .ok (some (if T = NumT.short then castTo 16 i else if T = NumT.int then castTo 32 i
            else i))
        else .ok none
      | .error _ => .ok none := by
  cases T
  all_goals
    simp only [toNumber, toNumberTry, stoi, stol, stoll, NumT.bits, reduceCtorEq, if_false,
      if_true, or_true, or_false, true_or, false_or]
    cases h : sto _ s with
    | error e => cases e <;> rfl
    | ok r =>
      obtain ⟨i, pos⟩ := r
      by_cases hl : (to_string i).length = s.length
      · simp [hl, bind, Except.bind, pure, Except.pure]
      · simp [hl, bind, Except.bind, pure, Except.pure, throw, throwThe, MonadExceptOf.throw]

/-- For the types other than `short`, a numeral whose value is not representable in `T` makes
`toNumber<T>` return an absent value. -/
theorem toNumber_absent_of_out_of_range (longBits : Nat) (T : NumT) (hT : T ≠ NumT.short)
    (s : List Char) (h : ¬ representable (NumT.bits longBits T) (leadingNumeral s)) :
    toNumber longBits T s = .ok none := by
  rw [toNumber_eq, sto_eq]
  by_cases hd : startsWithDigit (afterSign s) = false <;> simp [hT, hd, h]

/-- C1: whenever `std::stoi` does not consume the whole of `s` (it throws, or it stops before the
end of `s`), `toInt s` returns an absent value and nothing propagates. -/
theorem toInt_absent_of_not_fully_consumed (s : List Char)
    (h : ∀ i, stoi s ≠ .ok (i, s.length)) : toInt s = .ok none := by
  rw [toInt_eq]
  cases hs : stoi s with
  | error e => rfl
  | ok r =>
    obtain ⟨i, pos⟩ := r
    have hne : pos ≠ s.length := fun hp => h i (by rw [hs, hp])
    obtain ⟨hd, hi, hp, -⟩ := sto_ok hs
    have h1 := to_string_length_le_numeralEnd s hd
    have h2 := numeralEnd_le_length s
    have hl : (to_string i).length ≠ s.length := by
      rw [hi]; omega
    simp [hl]

/-- C1 at `"123ABC"`: the conversion stops after three of the six characters. -/
theorem toInt_absent_of_not_fully_consumed_witness :
    stoi "123ABC".toList = .ok (123, 3) ∧ toInt "123ABC".toList = .ok none :=
  ⟨by decide, toInt_absent_of_not_fully_consumed "123ABC".toList (by
    intro i hi
    have h3 : stoi "123ABC".toList = .ok (123, 3) := by decide
    rw [h3] at hi
    simp at hi)⟩

/-- C2: for every `i` representable as a 32-bit `int`, `toInt (std::to_string i)` is
`present i`. -/
theorem toInt_to_string (i : Int) (h : representable 32 i) :
    toInt (to_string i) = .ok (some i) := by
  rw [toInt_eq, stoi, sto_to_string 32 i h]
  simp

/-- C2 at `"123"` and `"-987654321"`. -/
theorem toInt_to_string_witness :
    (to_string 123 = "123".toList ∧ toInt (to_string 123) = .ok (some 123))
      ∧ (to_string (-987654321) = "-987654321".toList
        ∧ toInt (to_string (-987654321)) = .ok (some (-987654321))) :=
  ⟨⟨by decide, toInt_to_string 123 (by decide)⟩,
    ⟨by decide, toInt_to_string (-987654321) (by decide)⟩⟩

/-- C3: for a string in an invalid format, or whose leading numeral denotes a value outside the
32-bit `int` range, `toInt` raises nothing and returns an absent value. -/
theorem toInt_absent_of_invalid_or_out_of_range (s : List Char)
    (h : invalidFormat s ∨ ¬ representable 32 (leadingNumeral s)) :
    toInt s = .ok none := by
  rw [toInt_eq, stoi, sto_eq]
  rcases h with h | h
  · unfold invalidFormat at h
    simp [h]
  · by_cases hd : startsWithDigit (afterSign s) = false <;> simp [hd, h]

/-- C3 at `"ABC123"`, at the empty string and at `"2147483648"`. -/
theorem toInt_absent_of_invalid_or_out_of_range_witness :
    (invalidFormat "ABC123".toList ∧ toInt "ABC123".toList = .ok none)
      ∧ (invalidFormat [] ∧ toInt [] = .ok none)
      ∧ (¬ representable 32 (leadingNumeral "2147483648".toList)
        ∧ toInt "2147483648".toList = .ok none) :=
  ⟨⟨by decide, toInt_absent_of_invalid_or_out_of_range _ (Or.inl (by decide))⟩,
    ⟨by decide, toInt_absent_of_invalid_or_out_of_range _ (Or.inl (by decide))⟩,
    ⟨by decide, toInt_absent_of_invalid_or_out_of_range _ (Or.inr (by decide))⟩⟩

/-- C4 (where the code departs from it): `"40000"` is outside the range of `short`, yet
`toNumber<short>` returns a present value, `40000` wrapped to 16 bits. -/
theorem toNumber_short_40000 (longBits : Nat) :
    ¬ representable (NumT.bits longBits NumT.short) (leadingNumeral "40000".toList)
      ∧ toNumber longBits NumT.short "40000".toList = .ok (some (-25536)) := by
  have hr : ¬ representable 16 (leadingNumeral "40000".toList) := by decide
  have hs : sto 32 "40000".toList = .ok (40000, 5) := by decide
  have hc : castTo 16 40000 = -25536 := by decide
  refine ⟨hr, ?_⟩
  rw [toNumber_eq]
  simp only [if_true, hs, hc]
  rfl

/-- C5: for every target type `T` and every `v` representable in `T`, `toNumber<T>` applied to
`std::to_string v` is `present v`. -/
theorem toNumber_to_string (longBits : Nat) (T : NumT) (v : Int)
    (h : representable (NumT.bits longBits T) v) :
    toNumber longBits T (to_string v) = .ok (some v) := by
  rw [toNumber_eq]
  cases T
  · have h16 : representable 16 v := h
    have h32 : representable 32 v := representable_mono (by norm_num) (by norm_num) h16
    simp [sto_to_string 32 v h32, castTo_16 h16]
  · simp [NumT.bits, sto_to_string 32 v h, castTo_32 h]
  · simp [NumT.bits, sto_to_string longBits v h]
  · simp [NumT.bits, sto_to_string 64 v h]

/-- C5 at the maximum of each type, as in `testExercise_01b`. -/
theorem toNumber_to_string_witness :
    (to_string 32767 = "32767".toList
        ∧ toNumber 32 NumT.short (to_string 32767) = .ok (some 32767))
      ∧ (to_string 2147483647 = "2147483647".toList
        ∧ toNumber 32 NumT.int (to_string 2147483647) = .ok (some 2147483647))
      ∧ (toNumber 32 NumT.long (to_string 2147483647) = .ok (some 2147483647)
        ∧ toNumber 64 NumT.long (to_string 2147483647) = .ok (some 2147483647))
      ∧ (to_string 9223372036854775807 = "9223372036854775807".toList
        ∧ toNumber 32 NumT.longLong (to_string 9223372036854775807)
          = .ok (some 9223372036854775807)) :=
  ⟨⟨by decide, toNumber_to_string 32 NumT.short 32767 (by decide)⟩,
    ⟨by decide, toNumber_to_string 32 NumT.int 2147483647 (by decide)⟩,
    ⟨toNumber_to_string 32 NumT.long 2147483647 (by decide),
      toNumber_to_string 64 NumT.long 2147483647 (by decide)⟩,
    ⟨by decide, toNumber_to_string 32 NumT.longLong 9223372036854775807 (by decide)⟩⟩

end Exercises_UtilityClasses.Exercise_02

/-! ## The heterogeneous container -/

namespace Exercises_UtilityClasses.Exercise_03

theorem foldl_emplace_back (vs : List Variant) (c : HeterogeneousContainer) :
    (vs.foldl HeterogeneousContainer.emplace_back c).m_values = c.m_values ++ vs := by
  induction vs generalizing c with
  | nil => simp
  | cons v rest ih =>
    simp [List.foldl_cons, ih, HeterogeneousContainer.emplace_back, HeterogeneousContainer.Values]

theorem visitLoop_constVisitor {σ : Type} (onInt : Int → σ → σ) (onString : List Char → σ → σ)
    (vs : List Variant) (st : σ) :
    (visitLoop (constVisitor onInt onString) vs st).1 = vs := by
  induction vs generalizing st with
  | nil => rfl
  | cons v rest ih =>
    cases v <;> simp only [visitLoop, std_visit, ih] <;> rfl

theorem visitLoop_recording {σ : Type} (f : Visitor σ) (vs : List Variant) (st : σ)
    (log : List Call) :
    (visitLoop (recording f) vs (st, log)).2.2 = log ++ vs.map Call.matching
      ∧ (visitLoop (recording f) vs (st, log)).1 = (visitLoop f vs st).1
      ∧ (visitLoop (recording f) vs (st, log)).2.1 = (visitLoop f vs st).2 := by
  induction vs generalizing st log with
  | nil => simp [visitLoop]
  | cons v rest ih =>
    cases v with
    | int x =>
      obtain ⟨h1, h2, h3⟩ := ih (f.onInt x st).2 (log ++ [Call.intOverload x])
      simp only [visitLoop, std_visit, recording] at h1 h2 h3 ⊢
      simp [h1, h2, h3, Call.matching]
    | string t =>
      obtain ⟨h1, h2, h3⟩ := ih (f.onString t st).2 (log ++ [Call.stringOverload t])
      simp only [visitLoop, std_visit, recording] at h1 h2 h3 ⊢
      simp [h1, h2, h3, Call.matching]

theorem visitLoop_MyPrintVisitor (vs : List Variant) (out : List Char) :
    (visitLoop MyPrintVisitor vs out).2 = out ++ (vs.map MyPrintVisitor.rendering).flatten := by
  induction vs generalizing out with
  | nil => simp [visitLoop]
  | cons v rest ih =>
    cases v <;>
      simp [visitLoop, std_visit, MyPrintVisitor, constVisitor, MyPrintVisitor.rendering] at ih ⊢ <;>
      rw [ih] <;> simp

theorem visitLoop_lambdaAllInOneVisitor (vs : List Variant) (out : List Char) :
    (visitLoop lambdaAllInOneVisitor vs out).2
      = out ++ (vs.map lambdaAllInOneVisitor.rendering).flatten := by
  induction vs generalizing out with
  | nil => simp [visitLoop]
  | cons v rest ih =>
    cases v <;>
      simp [visitLoop, std_visit, lambdaAllInOneVisitor, constVisitor,
        lambdaAllInOneVisitor.rendering] at ih ⊢ <;>
      rw [ih] <;> simp

/-- C6: after `v1 .. vn` have been appended to a fresh container with `Values().emplace_back`, the
container holds exactly `v1 .. vn` in that order, and a visit with a visitor that takes its
argument by `const` reference (the printing visitors among them) returns the container
unchanged: same slots, same alternative and same value in each. -/
theorem emplace_back_order_and_const_visit_frame (vs : List Variant) {σ : Type}
    (onInt : Int → σ → σ) (onString : List Char → σ → σ) (st : σ) (out : List Char) :
    (vs.foldl HeterogeneousContainer.emplace_back HeterogeneousContainer.empty).Values = vs
      ∧ ((vs.foldl HeterogeneousContainer.emplace_back HeterogeneousContainer.empty).visit
          (constVisitor onInt onString) st).1
        = vs.foldl HeterogeneousContainer.emplace_back HeterogeneousContainer.empty
      ∧ ((vs.foldl HeterogeneousContainer.emplace_back HeterogeneousContainer.empty).visit
          MyPrintVisitor out).1
        = vs.foldl HeterogeneousContainer.emplace_back HeterogeneousContainer.empty
      ∧ ((vs.foldl HeterogeneousContainer.emplace_back HeterogeneousContainer.empty).visit
          lambdaAllInOneVisitor out).1
        = vs.foldl HeterogeneousContainer.emplace_back HeterogeneousContainer.empty := by
  have hv : (vs.foldl HeterogeneousContainer.emplace_back HeterogeneousContainer.empty).m_values
      = vs := by
    rw [foldl_emplace_back]; rfl
  have hc : ∀ {τ : Type} (f : Int → τ → τ) (g : List Char → τ → τ) (t : τ),
      ((vs.foldl HeterogeneousContainer.emplace_back HeterogeneousContainer.empty).visit
          (constVisitor f g) t).1
        = vs.foldl HeterogeneousContainer.emplace_back HeterogeneousContainer.empty := by
    intro τ f g t
    simp only [HeterogeneousContainer.visit, visitLoop_constVisitor]
  exact ⟨hv, hc _ _ _, hc _ _ _, hc _ _ _⟩

/-- C7: `visit` invokes the visitor once per stored value, in insertion order, each time through
the overload for the alternative held and on the value held; recording the invocations changes
nothing else. The text written by a printing visitor is therefore the concatenation, in order,
of the renderings of the stored values, and on an empty container no invocation takes place. -/
theorem visit_invokes_each_slot_once_in_order {σ : Type} (c : HeterogeneousContainer)
    (f : Visitor σ) (st : σ) (out : List Char) :
    (c.visit (recording f) (st, [])).2.2 = c.m_values.map Call.matching
      ∧ (c.visit (recording f) (st, [])).1 = (c.visit f st).1
      ∧ (c.visit (recording f) (st, [])).2.1 = (c.visit f st).2
      ∧ (c.visit MyPrintVisitor out).2
        = out ++ (c.m_values.map MyPrintVisitor.rendering).flatten
      ∧ (c.visit lambdaAllInOneVisitor out).2
        = out ++ (c.m_values.map lambdaAllInOneVisitor.rendering).flatten
      ∧ HeterogeneousContainer.empty.visit (recording f) (st, [])
        = (HeterogeneousContainer.empty, (st, [])) := by
  obtain ⟨h1, h2, h3⟩ := visitLoop_recording f c.m_values st []
  refine ⟨?_, ?_, ?_, ?_, ?_, rfl⟩
  · simpa [HeterogeneousContainer.visit] using h1
  · simp [HeterogeneousContainer.visit, h2]
  · simpa [HeterogeneousContainer.visit] using h3
  · simp [HeterogeneousContainer.visit, visitLoop_MyPrintVisitor]
  · simp [HeterogeneousContainer.visit, visitLoop_lambdaAllInOneVisitor]

end Exercises_UtilityClasses.Exercise_03

/-! ## The RAII demonstrations -/

namespace RAIIDemo

theorem events_of_trace {c : Code} {st : State} {es : List Event}
    (h : (c st).2.trace = st.trace ++ es) : events c st = es := by
  unfold events
  rw [h]
  simp

theorem test_01_trace (st : State) :
    test_01 st = (Completion.normal, (test_01 st).2)
      ∧ (test_01 st).2.trace = st.trace
        ++ [Event.new st.next 1, Event.delete st.next, Event.cout "Done.".toList] := by
  simp [test_01, seq, block, declare_RAII, new_Dummy, RAII.dtor, RAIIDemo.delete, stmt, cout,
    RAII.ctor]

theorem test_02_trace (st : State) :
    test_02 st = (Completion.normal, (test_02 st).2)
      ∧ (test_02 st).2.trace = st.trace
        ++ [Event.new st.next 2, Event.sayHello st.next, Event.cout (valueLine 2),
          Event.sayHello st.next, Event.cout (valueLine 2), Event.delete st.next,
          Event.cout "Done.".toList] := by
  simp [test_02, seq, block, declare_RAII, new_Dummy, RAII.dtor, RAIIDemo.delete, stmt, cout,
    RAII.ctor, sayHello, getValue, RAII.arrow, RAII.deref]

theorem test_03_trace (st : State) :
    test_03 st = (Completion.normal, (test_03 st).2)
      ∧ (test_03 st).2.trace = st.trace
        ++ [Event.new st.next 3, Event.delete st.next, Event.cout "Done.".toList] := by
  simp [test_03, seq, doWhileFalse, block, declare_RAII, new_Dummy, RAII.dtor, RAIIDemo.delete,
    stmt, cout, RAII.ctor]

theorem test_04_trace (st : State) :
    test_04 st = (Completion.normal, (test_04 st).2)
      ∧ (test_04 st).2.trace = st.trace
        ++ [Event.new st.next 4, Event.delete st.next,
          Event.cout "Exception 99 occurred!".toList, Event.cout "Done.".toList] := by
  have h99 : Exercises_UtilityClasses.to_string 99 = "99".toList := by decide
  simp [test_04, seq, try_catch, block, declare_RAII, new_Dummy, RAII.dtor, RAIIDemo.delete,
    stmt, cout, RAII.ctor, h99]

theorem test_05_trace (st : State) :
    test_05 st = (Completion.normal, (test_05 st).2)
      ∧ (test_05 st).2.trace = st.trace
        ++ [Event.new st.next 5, Event.delete st.next, Event.cout "Done.".toList] := by
  simp [test_05, seq, block, declare_RAIIContainer, new_Dummy, RAIIContainer.dtor, RAII.dtor,
    RAIIDemo.delete, stmt, cout, RAII.ctor, RAIIContainer.ctor]

theorem count_delete_alloc_delete (p q : Nat) (v : Int) (rest : List Event)
    (hrest : rest.count (Event.delete p) = 0) :
    (Event.new q v :: Event.delete q :: rest).count (Event.delete p)
      = if p = q then 1 else 0 := by
  by_cases h : p = q
  · subst h
    simp [List.count_cons, hrest]
  · have h2 : ¬ q = p := fun e => h e.symm
    simp [List.count_cons, hrest, h, h2]

/-- C8: in `test_01`, `test_03`, `test_04` and `test_05`, run from any state, the object handed to
the wrapper (the one `new` has just returned, at address `st.next`) is passed to `delete`
exactly once, and nothing else is. -/
theorem tests_release_exactly_once (st : State) (p : Nat) :
    (Event.new st.next 1 ∈ events test_01 st
        ∧ (events test_01 st).count (Event.delete p) = if p = st.next then 1 else 0)
      ∧ (Event.new st.next 3 ∈ events test_03 st
        ∧ (events test_03 st).count (Event.delete p) = if p = st.next then 1 else 0)
      ∧ (Event.new st.next 4 ∈ events test_04 st
        ∧ (events test_04 st).count (Event.delete p) = if p = st.next then 1 else 0)
      ∧ (Event.new st.next 5 ∈ events test_05 st
        ∧ (events test_05 st).count (Event.delete p) = if p = st.next then 1 else 0) := by
  rw [events_of_trace (test_01_trace st).2, events_of_trace (test_03_trace st).2,
    events_of_trace (test_04_trace st).2, events_of_trace (test_05_trace st).2]
  refine ⟨⟨by simp, ?_⟩, ⟨by simp, ?_⟩, ⟨by simp, ?_⟩, ⟨by simp, ?_⟩⟩ <;>
    exact count_delete_alloc_delete p st.next _ _ (by simp [List.count_cons])

/-- C9: whichever way the rest of a block completes (falling through, `break`, a thrown
exception), the wrapper it owns has released its object when control leaves the block, and the
completion is passed on; so in `test_04` the release comes before the handler's line, and in
every demonstration it comes before the line `Done.`, after which the function returns
normally. -/
theorem release_precedes_leaving_the_scope (init : State → RAII × State) (body : RAII → Code)
    (st : State) :
    ((block RAII.dtor init body st).1 = (body (init st).1 (init st).2).1
        ∧ (block RAII.dtor init body st).2.trace
          = (body (init st).1 (init st).2).2.trace ++ [Event.delete (init st).1.m_p])
      ∧ (test_04 st).1 = Completion.normal
      ∧ events test_04 st = [Event.new st.next 4, Event.delete st.next,
          Event.cout "Exception 99 occurred!".toList, Event.cout "Done.".toList]
      ∧ (test_01 st).1 = Completion.normal
      ∧ events test_01 st
        = [Event.new st.next 1, Event.delete st.next, Event.cout "Done.".toList]
      ∧ (test_02 st).1 = Completion.normal
      ∧ events test_02 st
        = [Event.new st.next 2, Event.sayHello st.next, Event.cout (valueLine 2),
          Event.sayHello st.next, Event.cout (valueLine 2), Event.delete st.next,
          Event.cout "Done.".toList]
      ∧ (test_03 st).1 = Completion.normal
      ∧ events test_03 st
        = [Event.new st.next 3, Event.delete st.next, Event.cout "Done.".toList]
      ∧ (test_05 st).1 = Completion.normal
      ∧ events test_05 st
        = [Event.new st.next 5, Event.delete st.next, Event.cout "Done.".toList] := by
  have h1 := test_01_trace st
  have h2 := test_02_trace st
  have h3 := test_03_trace st
  have h4 := test_04_trace st
  have h5 := test_05_trace st
  refine ⟨⟨rfl, rfl⟩, ?_, events_of_trace h4.2, ?_, events_of_trace h1.2, ?_,
    events_of_trace h2.2, ?_, events_of_trace h3.2, ?_, events_of_trace h5.2⟩
  · rw [h4.1]
  · rw [h1.1]
  · rw [h2.1]
  · rw [h3.1]
  · rw [h5.1]

theorem count_set_of_getElem? {α : Type} [BEq α] [LawfulBEq α] (l : List α) (i : Nat)
    (a c b : α) (h : l[i]? = some a) :
    (l.set i c).count b + (if a == b then 1 else 0)
      = l.count b + (if c == b then 1 else 0) := by
  induction l generalizing i with
  | nil => simp at h
  | cons x xs ih =>
    cases i with
    | zero =>
      simp only [List.getElem?_cons_zero, Option.some.injEq] at h
      subst h
      simp only [List.set_cons_zero, List.count_cons]
      omega
    | succ j =>
      simp only [List.getElem?_cons_succ] at h
      have := ih j h
      simp only [List.set_cons_succ, List.count_cons]
      omega

theorem init_consistent : World.init.consistent := by
  intro p
  simp [World.init, owners, releases]

theorem step_consistent (op : Op) (hop : op.isCopy = false) (w w' : World)
    (h : step op w = some w') (hw : w.consistent) : w'.consistent := by
  cases op with
  | copy_construct src => simp [Op.isCopy] at hop
  | copy_assign dst src => simp [Op.isCopy] at hop
  | construct value =>
    simp only [step, declare_RAII, new_Dummy, RAII.ctor, Option.some.injEq] at h
    subst h
    intro p
    have hp := hw p
    simp only [owners, releases, List.count_append, List.count_cons, List.count_nil,
      beq_iff_eq, Option.some.injEq, RAII.mk.injEq, reduceCtorEq, if_false] at hp ⊢
    constructor
    · intro hlt
      by_cases he : w.st.next = p
      · have := hp.2 (by omega)
        simp only [he, if_true]
        omega
      · have := hp.1 (by omega)
        simp only [he, if_false]
        omega
    · intro hle
      have he : ¬ w.st.next = p := by omega
      have := hp.2 (by omega)
      simp only [he, if_false]
      omega
  | destroy i =>
    simp only [step] at h
    split at h
    · rename_i self hget
      obtain ⟨q⟩ := self
      simp only [Option.some.injEq] at h
      subst h
      have hmem : (some ⟨q⟩ : Option RAII) ∈ w.wrappers := List.getElem?_mem hget
      have hpos : 0 < owners q w := by
        unfold owners
        exact List.count_pos_iff.2 hmem
      intro p
      have hp := hw p
      have hs := hw q
      have hc := count_set_of_getElem? w.wrappers i (some ⟨q⟩) none (some ⟨p⟩) hget
      simp only [owners, releases, RAII.dtor, RAIIDemo.delete, List.count_append,
        List.count_cons, List.count_nil, beq_iff_eq, Event.delete.injEq, reduceCtorEq,
        if_false, Option.some.injEq, RAII.mk.injEq] at hp hs hpos hc ⊢
      by_cases he : q = p
      · subst he
        simp only [if_true] at hc ⊢
        constructor
        · intro hlt
          have := hp.1 hlt
          omega
        · intro hle
          have := hp.2 hle
          omega
      · simp only [he, if_false] at hc ⊢
        constructor
        · intro hlt
          have := hp.1 hlt
          omega
        · intro hle
          have := hp.2 hle
          omega
    · cases h

theorem run_consistent (ops : List Op) (hops : ∀ op ∈ ops, op.isCopy = false) (w w' : World)
    (h : run ops w = some w') (hw : w.consistent) : w'.consistent := by
  induction ops generalizing w with
  | nil =>
    simp only [run, Option.some.injEq] at h
    subst h
    exact hw
  | cons op rest ih =>
    simp only [run] at h
    cases hs : step op w with
    | none => rw [hs] at h; cases h
    | some w1 =>
      rw [hs] at h
      exact ih (fun o ho => hops o (List.mem_cons_of_mem _ ho)) w1 h
        (step_consistent op (hops op (List.mem_cons_self _ _)) w w1 hs hw)

/-- C10 as stated fails: after `RAII<Dummy> a (new Dummy (1)); RAII<Dummy> b (a);` two living
wrappers hold the one allocation, and once both are destroyed it has been passed to `delete`
twice; after `a = b` on two wrappers with an allocation each, the first allocation is never
released and the second is released twice. -/
theorem copies_break_single_ownership :
    (run [Op.construct 1, Op.copy_construct 0] World.init).map (owners 0) = some 2
      ∧ (run [Op.construct 1, Op.copy_construct 0, Op.destroy 1, Op.destroy 0]
          World.init).map (releases 0) = some 2
      ∧ (run [Op.construct 1, Op.construct 2, Op.copy_assign 0 1, Op.destroy 0, Op.destroy 1]
          World.init).map (fun w => (releases 0 w, releases 1 w)) = some (0, 2) := by
  decide

/-- C10, amended: over every sequence of constructions (each from a fresh allocation) and
destructions, with no copy construction and no copy assignment, at most one living wrapper holds
a given allocation, the allocation has been released at most once, it is released exactly once
as soon as no living wrapper holds it, and it is not released while one does. -/
theorem single_owner_without_copies (ops : List Op) (hops : ∀ op ∈ ops, op.isCopy = false)
    (w : World) (h : run ops World.init = some w) (p : Nat) :
    owners p w ≤ 1 ∧ releases p w ≤ 1
      ∧ (p < w.st.next → (owners p w = 0 ↔ releases p w = 1))
      ∧ (p < w.st.next → (owners p w = 1 ↔ releases p w = 0)) := by
  have hc := run_consistent ops hops World.init w h init_consistent p
  by_cases hp : p < w.st.next
  · have := hc.1 hp
    refine ⟨by omega, by omega, fun _ => by omega, fun _ => by omega⟩
  · have := hc.2 (by omega)
    refine ⟨by omega, by omega, fun h' => absurd h' hp, fun h' => absurd h' hp⟩

/-- C10, amended, at `RAII<Dummy> a (new Dummy (1));` followed by the end of `a`. -/
theorem single_owner_without_copies_witness :
    run [Op.construct 1, Op.destroy 0] World.init
        = some ⟨⟨1, [], [Event.new 0 1, Event.delete 0]⟩, [none]⟩
      ∧ owners 0 ⟨⟨1, [], [Event.new 0 1, Event.delete 0]⟩, [none]⟩ = 0
      ∧ releases 0 ⟨⟨1, [], [Event.new 0 1, Event.delete 0]⟩, [none]⟩ = 1 :=
  ⟨by decide, by decide,
    ((single_owner_without_copies [Op.construct 1, Op.destroy 0] (by decide)
      ⟨⟨1, [], [Event.new 0 1, Event.delete 0]⟩, [none]⟩ (by decide) 0).2.2.1
        (by decide)).1 (by decide)⟩

end RAIIDemo

/-! ## Machine arithmetic without overflow -/

namespace Exercises_UtilityClasses

theorem representable_32_iff (v : Int) :
    representable 32 v ↔ -2147483648 ≤ v ∧ v ≤ 2147483647 := by
  unfold representable minOf maxOf
  norm_num

theorem int_add_eq {a b : Int} (h : representable 32 (a + b)) : int_add a b = a + b :=
  castTo_32 h

theorem int_sub_eq {a b : Int} (h : representable 32 (a - b)) : int_sub a b = a - b :=
  castTo_32 h

theorem int_mul_eq {a b : Int} (h : representable 32 (a * b)) : int_mul a b = a * b :=
  castTo_32 h

/-- A power that fits in an `int` is reached through powers that fit. -/
theorem representable_pow_of_succ (base : Int) (k : Nat)
    (h : representable 32 (base ^ (k + 1))) : representable 32 (base ^ k) := by
  rw [representable_32_iff] at h ⊢
  by_cases h0 : base = 0
  · subst h0
    cases k with
    | zero => norm_num
    | succ j => simp
  by_cases h1 : base = 1
  · subst h1
    simp
  by_cases hm1 : base = -1
  · subst hm1
    rcases neg_one_pow_eq_or ℤ k with e | e <;> rw [e] <;> norm_num
  · have hb : (2 : Int) ≤ |base| := by
      rcases abs_cases base with ⟨e, _⟩ | ⟨e, _⟩ <;> omega
    have habs : |base ^ (k + 1)| ≤ 2147483648 := by
      rw [abs_le]; constructor <;> omega
    rw [pow_succ, abs_mul] at habs
    have hv : 0 ≤ |base ^ k| := abs_nonneg _
    have h2 : |base ^ k| * 2 ≤ |base ^ k| * |base| := mul_le_mul_of_nonneg_left hb hv
    have h3 : |base ^ k| ≤ 1073741824 := by omega
    rw [abs_le] at h3
    constructor <;> omega

end Exercises_UtilityClasses

/-! ## The recursive lambdas -/

namespace GenericLambdas

open Exercises_UtilityClasses

theorem test_10_power_nat (base : Int) (e : Nat) :
    ∀ fuel : Nat, e < fuel → (e : Int) ≤ 2147483647 → representable 32 (base ^ e) →
      test_10.power fuel base e = some (base ^ e) := by
  induction e with
  | zero =>
    intro fuel hf _ _
    obtain ⟨f, rfl⟩ := Nat.exists_eq_succ_of_ne_zero (by omega : fuel ≠ 0)
    simp [test_10.power, test_10.body]
  | succ k ih =>
    intro fuel hf hk hr
    obtain ⟨f, rfl⟩ := Nat.exists_eq_succ_of_ne_zero (by omega : fuel ≠ 0)
    have hne : ((k + 1 : Nat) : Int) ≠ 0 := by omega
    have hsub : int_sub ((k + 1 : Nat) : Int) 1 = (k : Int) := by
      rw [int_sub_eq]
      · omega
      · rw [representable_32_iff]; omega
    have hrec := ih f (by omega) (by omega) (representable_pow_of_succ base k hr)
    have hmul : int_mul base (base ^ k) = base ^ (k + 1) := by
      rw [int_mul_eq]
      · rw [pow_succ, mul_comm]
      · rw [← pow_succ']; exact hr
    simp only [test_10.power, test_10.body, hne, if_false, hsub, hrec, Option.map_some', hmul]

theorem test_12_power_nat (base : Int) (e : Nat) :
    ∀ fuel : Nat, e < fuel → (e : Int) ≤ 2147483647 → representable 32 (base ^ e) →
      test_12.power fuel base e = some (base ^ e) := by
  induction e with
  | zero =>
    intro fuel hf _ _
    obtain ⟨f, rfl⟩ := Nat.exists_eq_succ_of_ne_zero (by omega : fuel ≠ 0)
    simp [test_12.power, test_12.body]
  | succ k ih =>
    intro fuel hf hk hr
    obtain ⟨f, rfl⟩ := Nat.exists_eq_succ_of_ne_zero (by omega : fuel ≠ 0)
    have hne : ((k + 1 : Nat) : Int) ≠ 0 := by omega
    have hsub : int_sub ((k + 1 : Nat) : Int) 1 = (k : Int) := by
      rw [int_sub_eq]
      · omega
      · rw [representable_32_iff]; omega
    have hrec := ih f (by omega) (by omega) (representable_pow_of_succ base k hr)
    have hmul : int_mul base (base ^ k) = base ^ (k + 1) := by
      rw [int_mul_eq]
      · rw [pow_succ, mul_comm]
      · rw [← pow_succ']; exact hr
    simp only [test_12.power, test_12.body, hne, if_false, hsub, hrec, Option.map_some', hmul]

theorem test_10_power_none (fuel : Nat) :
    ∀ base exp : Int, (fuel : Int) ≤ exp → exp ≤ 2147483647 →
      test_10.power fuel base exp = none := by
  induction fuel with
  | zero => intro base exp _ _; rfl
  | succ f ih =>
    intro base exp hle hmax
    have hne : exp ≠ 0 := by omega
    have hsub : int_sub exp 1 = exp - 1 := by
      rw [int_sub_eq]
      rw [representable_32_iff]; omega
    have hrec := ih base (exp - 1) (by omega) (by omega)
    simp only [test_10.power, test_10.body, hne, if_false, hsub, hrec, Option.map_none']

theorem test_12_power_none (fuel : Nat) :
    ∀ base exp : Int, (fuel : Int) ≤ exp → exp ≤ 2147483647 →
      test_12.power fuel base exp = none := by
  induction fuel with
  | zero => intro base exp _ _; rfl
  | succ f ih =>
    intro base exp hle hmax
    have hne : exp ≠ 0 := by omega
    have hsub : int_sub exp 1 = exp - 1 := by
      rw [int_sub_eq]
      rw [representable_32_iff]; omega
    have hrec := ih base (exp - 1) (by omega) (by omega)
    simp only [test_12.power, test_12.body, hne, if_false, hsub, hrec, Option.map_none']

/-- C11 as stated fails: the recursion nests `exp + 1` calls, and `1 ^ exp` is representable for
every `exp`. With room for a million nested calls neither `power(1, 1000000)` of `test_10` nor
`power(power, 1, 1000000)` of `test_12` returns, and with room for `2147483647` nested calls
neither returns at the largest exponent, `2147483647`. -/
theorem power_exhausts_the_stack :
    (0 ≤ (1000000 : Int) ∧ representable 32 1000000
        ∧ representable 32 ((1 : Int) ^ (1000000 : Int).toNat)
        ∧ test_10.power 1000000 1 1000000 = none
        ∧ test_12.power 1000000 1 1000000 = none)
      ∧ (0 ≤ (2147483647 : Int) ∧ representable 32 2147483647
        ∧ representable 32 ((1 : Int) ^ (2147483647 : Int).toNat)
        ∧ test_10.power 2147483647 1 2147483647 = none
        ∧ test_12.power 2147483647 1 2147483647 = none) := by
  have h1 : ∀ k : Nat, representable 32 ((1 : Int) ^ k) := by
    intro k
    rw [one_pow]
    decide
  exact ⟨⟨by decide, by decide, h1 _,
      test_10_power_none 1000000 1 1000000 (by norm_num) (by norm_num),
      test_12_power_none 1000000 1 1000000 (by norm_num) (by norm_num)⟩,
    ⟨by decide, by decide, h1 _,
      test_10_power_none 2147483647 1 2147483647 (by norm_num) (by norm_num),
      test_12_power_none 2147483647 1 2147483647 (by norm_num) (by norm_num)⟩⟩

/-- C11, amended: for every `int` exponent `exp >= 0` and every base such that `base ^ exp` is
representable as a 32-bit `int`, and whenever the stack has room for the `exp + 1` nested calls
the recursion makes, the `std::function` version of `power` (`test_10`) and the self-passing
generic lambda (`test_12`, at `int`) both return `base ^ exp`; with exponent `0` the result is
`1`. -/
theorem power_returns_pow (base exp : Int) (h0 : 0 ≤ exp) (he : representable 32 exp)
    (hr : representable 32 (base ^ exp.toNat)) (fuel : Nat) (hf : exp.toNat < fuel) :
    test_10.power fuel base exp = some (base ^ exp.toNat)
      ∧ test_12.power fuel base exp = some (base ^ exp.toNat)
      ∧ test_10.power fuel base 0 = some 1
      ∧ test_12.power fuel base 0 = some 1 := by
  obtain ⟨e, rfl⟩ := Int.eq_ofNat_of_zero_le h0
  rw [representable_32_iff] at he
  simp only [Int.toNat_ofNat] at hr hf ⊢
  obtain ⟨f, rfl⟩ := Nat.exists_eq_succ_of_ne_zero (by omega : fuel ≠ 0)
  exact ⟨test_10_power_nat base e _ hf he.2 hr, test_12_power_nat base e _ hf he.2 hr,
    by simp [test_10.power, test_10.body], by simp [test_12.power, test_12.body]⟩

/-- C11, amended, at `power(2, 10)`, with room for eleven nested calls. -/
theorem power_returns_pow_witness :
    test_10.power 11 2 10 = some 1024 ∧ test_12.power 11 2 10 = some 1024 :=
  ⟨(power_returns_pow 2 10 (by decide) (by decide) (by decide) 11 (by decide)).1,
    (power_returns_pow 2 10 (by decide) (by decide) (by decide) 11 (by decide)).2.1⟩

theorem factorial_le_twelve {k : Nat} (h : k ≤ 12) : (k.factorial : Int) ≤ 479001600 := by
  have h12 : Nat.factorial 12 = 479001600 := by decide
  have := Nat.factorial_le h
  omega

theorem test_11_factorial_nat (k : Nat) :
    ∀ fuel : Nat, k < fuel → k ≤ 12 →
      test_11.factorial fuel k = some (k.factorial : Int) := by
  induction k with
  | zero =>
    intro fuel hf _
    obtain ⟨f, rfl⟩ := Nat.exists_eq_succ_of_ne_zero (by omega : fuel ≠ 0)
    simp [test_11.factorial, test_11.body]
  | succ k ih =>
    intro fuel hf hk
    obtain ⟨f, rfl⟩ := Nat.exists_eq_succ_of_ne_zero (by omega : fuel ≠ 0)
    by_cases h2 : ((k + 1 : Nat) : Int) < 2
    · have hk0 : k = 0 := by omega
      subst hk0
      simp [test_11.factorial, test_11.body]
    · have hsub : int_sub ((k + 1 : Nat) : Int) 1 = (k : Int) := by
        rw [int_sub_eq]
        · omega
        · rw [representable_32_iff]; omega
      have hrec := ih f (by omega) (by omega)
      have hfac : (((k + 1).factorial : Nat) : Int) = ((k + 1 : Nat) : Int) * (k.factorial : Int) := by
        rw [Nat.factorial_succ]; push_cast; ring
      have hmul : int_mul ((k + 1 : Nat) : Int) (k.factorial : Int)
          = ((k + 1).factorial : Int) := by
        rw [int_mul_eq]
        · exact hfac.symm
        · rw [← hfac, representable_32_iff]
          have := factorial_le_twelve hk
          omega
      simp only [test_11.factorial, test_11.body, h2, if_false, hsub, hrec, Option.map_some',
        hmul]

theorem test_13_factorial_nat (k : Nat) :
    ∀ fuel : Nat, k < fuel → k ≤ 12 →
      test_13.factorial fuel k = some (k.factorial : Int) := by
  induction k with
  | zero =>
    intro fuel hf _
    obtain ⟨f, rfl⟩ := Nat.exists_eq_succ_of_ne_zero (by omega : fuel ≠ 0)
    simp [test_13.factorial, test_13.body]
  | succ k ih =>
    intro fuel hf hk
    obtain ⟨f, rfl⟩ := Nat.exists_eq_succ_of_ne_zero (by omega : fuel ≠ 0)
    by_cases h2 : ((k + 1 : Nat) : Int) < 2
    · have hk0 : k = 0 := by omega
      subst hk0
      simp [test_13.factorial, test_13.body]
    · have hsub : int_sub ((k + 1 : Nat) : Int) 1 = (k : Int) := by
        rw [int_sub_eq]
        · omega
        · rw [representable_32_iff]; omega
      have hrec := ih f (by omega) (by omega)
      have hfac : (((k + 1).factorial : Nat) : Int) = ((k + 1 : Nat) : Int) * (k.factorial : Int) := by
        rw [Nat.factorial_succ]; push_cast; ring
      have hmul : int_mul ((k + 1 : Nat) : Int) (k.factorial : Int)
          = ((k + 1).factorial : Int) := by
        rw [int_mul_eq]
        · exact hfac.symm
        · rw [← hfac, representable_32_iff]
          have := factorial_le_twelve hk
          omega
      simp only [test_13.factorial, test_13.body, h2, if_false, hsub, hrec, Option.map_some',
        hmul]

/-- C12: for every `int` `n` the `std::function` version of `factorial` (`test_11`) and the
self-passing version (`test_13`) return `1` when `n < 2` (negative `n` included) and `n!` when
`0 <= n <= 12`, at every bound on the recursion depth above `n`; so they agree on all these
`n`. -/
theorem factorial_returns_factorial (n : Int) (fuel : Nat) (hf : n.toNat < fuel) :
    (n < 2 → test_11.factorial fuel n = some 1 ∧ test_13.factorial fuel n = some 1)
      ∧ (0 ≤ n → n ≤ 12 →
        test_11.factorial fuel n = some (n.toNat.factorial : Int)
          ∧ test_13.factorial fuel n = some (n.toNat.factorial : Int)) := by
  obtain ⟨f, rfl⟩ := Nat.exists_eq_succ_of_ne_zero (by omega : fuel ≠ 0)
  constructor
  · intro h2
    simp [test_11.factorial, test_11.body, test_13.factorial, test_13.body, h2]
  · intro h0 h12
    obtain ⟨k, rfl⟩ := Int.eq_ofNat_of_zero_le h0
    simp only [Int.toNat_ofNat] at hf ⊢
    exact ⟨test_11_factorial_nat k _ hf (by omega), test_13_factorial_nat k _ hf (by omega)⟩

/-- C12 at `factorial(5)` and at a negative argument. -/
theorem factorial_returns_factorial_witness :
    (test_11.factorial 6 5 = some 120 ∧ test_13.factorial 6 5 = some 120)
      ∧ (test_11.factorial 1 (-7) = some 1 ∧ test_13.factorial 1 (-7) = some 1) :=
  ⟨(factorial_returns_factorial 5 6 (by decide)).2 (by decide) (by decide),
    (factorial_returns_factorial (-7) 1 (by decide)).1 (by decide)⟩

theorem find_if_le (p : Int → Bool) (xs : List Int) : find_if p xs ≤ xs.length := by
  induction xs with
  | nil => simp [find_if]
  | cons x rest ih =>
    unfold find_if
    split
    · simp
    · simp only [List.length_cons]
      omega

theorem find_if_before (p : Int → Bool) (xs : List Int) :
    ∀ j x, j < find_if p xs → xs[j]? = some x → p x = false := by
  induction xs with
  | nil => intro j x hj; simp [find_if] at hj
  | cons y rest ih =>
    intro j x hj hx
    unfold find_if at hj
    split at hj
    · omega
    · rename_i hy
      cases j with
      | zero =>
        simp only [List.getElem?_cons_zero, Option.some.injEq] at hx
        subst hx
        simpa using hy
      | succ k =>
        simp only [List.getElem?_cons_succ] at hx
        exact ih k x (by omega) hx

theorem find_if_at (p : Int → Bool) (xs : List Int) :
    ∀ x, xs[find_if p xs]? = some x → p x = true := by
  induction xs with
  | nil => intro x hx; simp [find_if] at hx
  | cons y rest ih =>
    intro x hx
    unfold find_if at hx
    split at hx
    · rename_i hy
      simp only [List.getElem?_cons_zero, Option.some.injEq] at hx
      subst hx
      exact hy
    · simp only [List.getElem?_cons_succ] at hx
      exact ih x hx

theorem find_if_eq_length_iff (p : Int → Bool) (xs : List Int) :
    find_if p xs = xs.length ↔ ∀ x ∈ xs, p x = false := by
  induction xs with
  | nil => simp [find_if]
  | cons y rest ih =>
    unfold find_if
    by_cases hy : p y = true
    · simp [hy]
    · simp only [hy, if_false, List.length_cons, Nat.add_right_cancel_iff,
        List.mem_cons, forall_eq_or_imp]
      simpa [hy] using ih

/-- C13: on every vector of `int`s, `std::find_if` with `isGreaterThanFifty` stops at the first
position whose element is strictly greater than 50 (every earlier element is at most 50), and
returns `end` exactly when no element exceeds 50; the function template
`isGreaterThanFiftyEx<int>` gives the same iterator. On `44, 65, 22, 77, 2` the element found
is `65`; `50` itself does not match. -/
theorem find_if_first_greater_than_fifty (xs : List Int) :
    find_if isGreaterThanFifty xs ≤ xs.length
      ∧ (∀ j x, j < find_if isGreaterThanFifty xs → xs[j]? = some x → x ≤ 50)
      ∧ (∀ x, found isGreaterThanFifty xs = some x → 50 < x)
      ∧ (find_if isGreaterThanFifty xs = xs.length ↔ ∀ x ∈ xs, x ≤ 50)
      ∧ (found isGreaterThanFifty xs = none ↔ ∀ x ∈ xs, x ≤ 50)
      ∧ find_if isGreaterThanFiftyEx xs = find_if isGreaterThanFifty xs
      ∧ found isGreaterThanFiftyEx xs = found isGreaterThanFifty xs
      ∧ found isGreaterThanFifty intValues = some 65
      ∧ found isGreaterThanFifty [50] = none := by
  have hiff : find_if isGreaterThanFifty xs = xs.length ↔ ∀ x ∈ xs, x ≤ 50 := by
    rw [find_if_eq_length_iff]
    simp [isGreaterThanFifty]
  refine ⟨find_if_le _ xs, ?_, ?_, hiff, ?_, rfl, rfl, by decide, by decide⟩
  · intro j x hj hx
    have := find_if_before _ xs j x hj hx
    simpa [isGreaterThanFifty] using this
  · intro x hx
    have := find_if_at _ xs x hx
    simpa [isGreaterThanFifty] using this
  · rw [← hiff]
    unfold found
    rw [List.getElem?_eq_none_iff]
    have := find_if_le isGreaterThanFifty xs
    omega

end GenericLambdas

/-! ## The modifying visitor -/

namespace Exercises_UtilityClasses.Exercise_03

theorem visitLoop_MyModifyingVisitor (vs : List Variant)
    (h : ∀ x, Variant.int x ∈ vs → representable 32 (x + x)) :
    (visitLoop MyModifyingVisitor vs ()).1 = vs.map Variant.doubled := by
  induction vs with
  | nil => rfl
  | cons v rest ih =>
    have hrest := ih (fun x hx => h x (List.mem_cons_of_mem _ hx))
    cases v with
    | int x =>
      have hx : int_add x x = x + x := int_add_eq (h x (List.mem_cons_self _ _))
      simp only [visitLoop, std_visit, MyModifyingVisitor, hx, List.map_cons, Variant.doubled]
      exact congrArg _ hrest
    | string t =>
      simp only [visitLoop, std_visit, MyModifyingVisitor, List.map_cons, Variant.doubled]
      exact congrArg _ hrest

theorem sameAlternative_doubled (v : Variant) : Variant.sameAlternative v v.doubled = true := by
  cases v <;> rfl

/-- C14 as stated fails for an `int` whose double does not fit: a slot holding `1073741824`
holds `-2147483648` after the modifying visit (in C++ the addition overflows), not
`2147483648`, which is no `int`. -/
theorem modifying_visit_overflow :
    ((HeterogeneousContainer.mk [Variant.int 1073741824]).visit MyModifyingVisitor ()).1.m_values
        = [Variant.int (-2147483648)]
      ∧ ((HeterogeneousContainer.mk [Variant.int 1073741824]).visit MyModifyingVisitor
          ()).1.m_values ≠ [Variant.int (1073741824 + 1073741824)]
      ∧ representable 32 1073741824
      ∧ ¬ representable 32 (1073741824 + 1073741824) := by
  decide

/-- C14, amended: when for every stored `int` `x` the sum `x + x` is representable as an `int`,
`visit(MyModifyingVisitor{})` keeps the number of slots and the alternative held in every slot,
replaces every `int` `x` by `x + x` and every string `t` by `t` followed by `t`, and changes
nothing else. -/
theorem modifying_visit_doubles (c : HeterogeneousContainer)
    (h : ∀ x, Variant.int x ∈ c.m_values → representable 32 (x + x)) :
    (c.visit MyModifyingVisitor ()).1.m_values = c.m_values.map Variant.doubled
      ∧ (c.visit MyModifyingVisitor ()).1.m_values.length = c.m_values.length
      ∧ (∀ (i : Nat) (v w : Variant), c.m_values[i]? = some v →
          (c.visit MyModifyingVisitor ()).1.m_values[i]? = some w →
            Variant.sameAlternative v w = true ∧ w = v.doubled) := by
  have hv : (c.visit MyModifyingVisitor ()).1.m_values = c.m_values.map Variant.doubled := by
    simp only [HeterogeneousContainer.visit]
    exact visitLoop_MyModifyingVisitor c.m_values h
  refine ⟨hv, by rw [hv, List.length_map], ?_⟩
  intro i v w hi hw
  rw [hv, List.getElem?_map, hi] at hw
  simp only [Option.map_some', Option.some.injEq] at hw
  subst hw
  exact ⟨sameAlternative_doubled v, rfl⟩

/-- C14, amended, at the content of `testExercise_01d`: `12, "34", 56, "78"` becomes
`24, "3434", 112, "7878"`. -/
theorem modifying_visit_doubles_witness :
    ((HeterogeneousContainer.mk testContent).visit MyModifyingVisitor ()).1.m_values
      = [Variant.int 24, Variant.string "3434".toList, Variant.int 112,
          Variant.string "7878".toList] :=
  (modifying_visit_doubles (HeterogeneousContainer.mk testContent) (by
    intro x hx
    simp only [testContent, List.mem_cons, Variant.int.injEq, reduceCtorEq, List.mem_nil_iff,
      or_false, false_or] at hx
    rcases hx with rfl | rfl <;> decide)).1

end Exercises_UtilityClasses.Exercise_03

/-! ## The pack expansions -/

namespace VariadicTemplatesSystematic

open Exercises_UtilityClasses

theorem lines_cons (v : Int) (vs : List Int) :
    lines (v :: vs) = to_string v ++ ['\n'] ++ lines vs := by
  simp [lines]

theorem print_pack_eq (rest : List Int) :
    ∀ (firstArg a : Int) (out : List Char),
      print_pack firstArg a rest out = out ++ lines (firstArg :: a :: rest) := by
  induction rest with
  | nil =>
    intro firstArg a out
    simp [print_pack, print_one, lines]
  | cons b rest ih =>
    intro firstArg a out
    rw [print_pack, ih, lines_cons firstArg]
    simp [print_one]

theorem print_eq (args : List Int) (hne : args ≠ []) (out : List Char) :
    print args out = some (out ++ lines args) := by
  match args, hne with
  | [a], _ => simp [print, print_one, lines]
  | a :: b :: rest, _ => simp [print, print_pack_eq]

theorem newline_not_mem_to_string (v : Int) : '\n' ∉ to_string v := by
  intro hmem
  have hd : isdigit '\n' = false := by decide
  unfold to_string at hmem
  split at hmem
  · rcases List.mem_cons.1 hmem with h | h
    · exact absurd h (by decide)
    · have := isdigit_of_mem_natDigits _ _ _ h
      rw [hd] at this
      cases this
  · have := isdigit_of_mem_natDigits _ _ _ hmem
    rw [hd] at this
    cases this

theorem count_newline_lines (vs : List Int) : (lines vs).count '\n' = vs.length := by
  induction vs with
  | nil => simp [lines]
  | cons v rest ih =>
    rw [lines_cons, List.count_append, List.count_append, ih,
      List.count_eq_zero_of_not_mem (newline_not_mem_to_string v)]
    simp
    omega

/-- C15 as stated fails where the transform of an argument does not fit an `int`:
`printFiveTimes(1000000000)` prints `705032704`, `printPlusOne(2147483647)` prints
`-2147483648` and `printDoubled(1073741824)` prints `-2147483648` twice (in C++ the arithmetic
overflows), not `5000000000`, `2147483648` and `2147483648`. -/
theorem pack_expansions_overflow :
    (printFiveTimes [1000000000] [] = some "705032704\n".toList
        ∧ printFiveTimes [1000000000] [] ≠ some (lines [5 * 1000000000]))
      ∧ (printPlusOne [2147483647] [] = some "-2147483648\n".toList
        ∧ printPlusOne [2147483647] [] ≠ some (lines [2147483647 + 1]))
      ∧ (printDoubled [1073741824] [] = some "-2147483648\n-2147483648\n".toList
        ∧ printDoubled [1073741824] []
          ≠ some (lines [1073741824 + 1073741824] ++ lines [1073741824 + 1073741824])) := by
  decide

/-- C15, amended: for every non-empty list of `int` arguments, each function prints the
element-wise transform of the arguments, one per line and in argument order, provided the
transform of every argument is representable as an `int`: `printFiveTimes` prints `5 * a`,
`printPlusOne` prints `a + 1`, and `printDoubled` prints `a + a` twice in succession, `2n`
lines in all. -/
theorem pack_expansions_print_transforms (args : List Int) (hne : args ≠ [])
    (out : List Char) :
    ((∀ a ∈ args, representable 32 (5 * a)) →
        printFiveTimes args out = some (out ++ lines (args.map (fun a => 5 * a))))
      ∧ ((∀ a ∈ args, representable 32 (a + 1)) →
        printPlusOne args out = some (out ++ lines (args.map (fun a => a + 1))))
      ∧ ((∀ a ∈ args, representable 32 (a + a)) →
        printDoubled args out
            = some (out ++ lines (args.map (fun a => a + a))
              ++ lines (args.map (fun a => a + a)))
          ∧ (lines (args.map (fun a => a + a))
              ++ lines (args.map (fun a => a + a))).count '\n' = 2 * args.length) := by
  refine ⟨?_, ?_, ?_⟩
  · intro h
    have hm : args.map (fun a => int_mul 5 a) = args.map (fun a => 5 * a) :=
      List.map_congr_left (fun a ha => int_mul_eq (h a ha))
    rw [printFiveTimes, hm, print_eq _ (by simpa using hne)]
  · intro h
    have hm : args.map (fun a => int_add a 1) = args.map (fun a => a + 1) :=
      List.map_congr_left (fun a ha => int_add_eq (h a ha))
    rw [printPlusOne, hm, print_eq _ (by simpa using hne)]
  · intro h
    have hm : args.map (fun a => int_add a a) = args.map (fun a => a + a) :=
      List.map_congr_left (fun a ha => int_add_eq (h a ha))
    constructor
    · rw [printDoubled, hm, print_eq _ (by simpa using hne)]
      simp only [Option.some_bind]
      rw [print_eq _ (by simpa using hne)]
    · rw [List.count_append, count_newline_lines, List.length_map]
      omega

/-- C15, amended, at the calls of `test_01` on `int`s. -/
theorem pack_expansions_print_transforms_witness :
    printFiveTimes [1, 2, 3, 4, 5] [] = some "5\n10\n15\n20\n25\n".toList
      ∧ printPlusOne [1, 5, 10] [] = some "2\n6\n11\n".toList
      ∧ printDoubled [7, 8] [] = some "14\n16\n14\n16\n".toList :=
  ⟨(pack_expansions_print_transforms [1, 2, 3, 4, 5] (by decide) []).1 (by decide),
    (pack_expansions_print_transforms [1, 5, 10] (by decide) []).2.1 (by decide),
    ((pack_expansions_print_transforms [7, 8] (by decide) []).2.2 (by decide)).1⟩

end VariadicTemplatesSystematic

/-! ## Which strings `toInt` accepts -/

namespace Exercises_UtilityClasses

end Exercises_UtilityClasses

namespace Exercises_UtilityClasses.Exercise_02

end Exercises_UtilityClasses.Exercise_02

/-! ## The vector of `Decltype::test_02` -/

namespace Decltype

/-- C17 (where the code departs from it): the one element access by index that `test_02`
evaluates, `vec[0] = 123`, is made on the vector just default-constructed, of size `0`; index
`0` is not below the size, so the assignment targets no existing element. -/
theorem test_02_subscript_out_of_bounds :
    test_02.accesses = [(0, 0)]
      ∧ (∀ a ∈ test_02.accesses, ¬ a.1 < a.2)
      ∧ test_02 = none := by
  decide

end Decltype
